import Mathlib

/- Verification model of open-webui's Collapsible.svelte
   (src/lib/components/common/Collapsible.svelte): the recursive JSON normalizer,
   the attachment content-type resolution pipeline, the presentation dispatcher
   and the disclosure controller, shallowly embedded in Lean.

   JavaScript runtime facilities the component relies on (JSON.parse,
   JSON.stringify, implicit string coercion, fetch, html-entity decoding) are
   modelled explicitly below. JSON numbers are restricted to integers in this
   model; none of the verified properties depend on fractional numbers. -/

/-- JavaScript values as produced by JSON parsing and flowing through the
component's normalizer (`parseJSONString`). Numbers are modelled as integers. -/
inductive JSValue where
  | str : String → JSValue
  | num : Int → JSValue
  | bool : Bool → JSValue
  | null : JSValue
  | arr : List JSValue → JSValue
  | obj : List (String × JSValue) → JSValue

/-- Constructor discriminator, used to separate distinct `JSValue` shapes. -/
def JSValue.tag : JSValue → Nat
  | .str _ => 0
  | .num _ => 1
  | .bool _ => 2
  | .null => 3
  | .arr _ => 4
  | .obj _ => 5

/-- The left brace character, kept out of literals for hygiene. -/
def lbrace : Char := Char.ofNat 123

/-- The right brace character, kept out of literals for hygiene. -/
def rbrace : Char := Char.ofNat 125

mutual

/-- JavaScript's implicit `String(v)` coercion, as applied by `JSON.parse` to a
non-string argument: numbers and primitives print their usual form, arrays
join their elements with commas (null elements become empty), and plain
objects become "[object Object]". -/
def jsToString : JSValue → String
  | .str s => s
  | .num n => toString n
  | .bool b => if b then "true" else "false"
  | .null => "null"
  | .arr xs => ⟨jsArrToString xs⟩
  | .obj _ => "[object Object]"

/-- `Array.prototype.toString`: elements joined by commas, `null` rendering
as the empty string. -/
def jsArrToString : List JSValue → List Char
  | [] => []
  | [JSValue.null] => []
  | [v] => (jsToString v).data
  | JSValue.null :: rest => ',' :: jsArrToString rest
  | v :: rest => (jsToString v).data ++ ',' :: jsArrToString rest

end

/-- JavaScript truthiness of a value (`if (x)`): empty string, zero, `false`
and `null` are falsy; every array and object is truthy. -/
def jsTruthy : JSValue → Bool
  | .str s => if s = "" then false else true
  | .num n => if n = 0 then false else true
  | .bool b => b
  | .null => false
  | .arr _ => true
  | .obj _ => true

/-- JavaScript's `typeof v === 'object'` test: true for arrays, plain objects
and (notoriously) `null`. -/
def jsTypeofObject : JSValue → Bool
  | .arr _ => true
  | .obj _ => true
  | .null => true
  | _ => false

/-- A structured value in the sense of the spec: an object or a list. -/
def jsStructured : JSValue → Bool
  | .arr _ => true
  | .obj _ => true
  | _ => false

/- ===== JSON.parse, modelled on the JSON grammar (integer numbers) ===== -/

/-- Skip JSON insignificant whitespace. -/
def skipWs : List Char → List Char
  | [] => []
  | c :: cs => if c = ' ' || c = '\t' || c = '\n' || c = '\r' then skipWs cs else c :: cs

/-- Take the maximal run of decimal digits. -/
def spanDigits : List Char → (List Char × List Char)
  | [] => ([], [])
  | c :: cs =>
    if c.isDigit then
      let r := spanDigits cs
      (c :: r.1, r.2)
    else ([], c :: cs)

/-- Numeric value of a digit run. -/
def digitsVal (ds : List Char) : Nat :=
  ds.foldl (fun a c => a * 10 + (c.toNat - 48)) 0

/-- Lex an unsigned JSON integer: at least one digit, no leading zeros, and
(in this integer-only model) no fraction or exponent part. -/
def parseNatCore (cs : List Char) : Option (Nat × List Char) :=
  match spanDigits cs with
  | ([], _) => none
  | (d :: ds, rest) =>
    if d = '0' && !ds.isEmpty then none
    else
      match rest with
      | '.' :: _ => none
      | 'e' :: _ => none
      | 'E' :: _ => none
      | _ => some (digitsVal (d :: ds), rest)

/-- Lex a JSON integer with optional leading minus sign. -/
def parseNumberCore (cs : List Char) : Option (Int × List Char) :=
  match cs with
  | '-' :: rest => Option.map (fun p => (-(p.1 : Int), p.2)) (parseNatCore rest)
  | _ => Option.map (fun p => ((p.1 : Int), p.2)) (parseNatCore cs)

/-- Value of a hexadecimal digit, if any. -/
def hexVal (c : Char) : Option Nat :=
  if c.isDigit then some (c.toNat - 48)
  else if 'a' ≤ c && c ≤ 'f' then some (c.toNat - 87)
  else if 'A' ≤ c && c ≤ 'F' then some (c.toNat - 55)
  else none

/-- Body of a JSON string after its opening quote: handles the postfix quote,
the standard escapes, \uXXXX, and rejects raw control characters. -/
def parseStringBody : List Char → Option (List Char × List Char)
  | [] => none
  | '"' :: rest => some ([], rest)
  | '\\' :: '"' :: r => Option.map (fun p => ('"' :: p.1, p.2)) (parseStringBody r)
  | '\\' :: '\\' :: r => Option.map (fun p => ('\\' :: p.1, p.2)) (parseStringBody r)
  | '\\' :: '/' :: r => Option.map (fun p => ('/' :: p.1, p.2)) (parseStringBody r)
  | '\\' :: 'b' :: r => Option.map (fun p => (Char.ofNat 8 :: p.1, p.2)) (parseStringBody r)
  | '\\' :: 'f' :: r => Option.map (fun p => (Char.ofNat 12 :: p.1, p.2)) (parseStringBody r)
  | '\\' :: 'n' :: r => Option.map (fun p => ('\n' :: p.1, p.2)) (parseStringBody r)
  | '\\' :: 'r' :: r => Option.map (fun p => ('\r' :: p.1, p.2)) (parseStringBody r)
  | '\\' :: 't' :: r => Option.map (fun p => ('\t' :: p.1, p.2)) (parseStringBody r)
  | '\\' :: 'u' :: a :: b :: c :: d :: r =>
    match hexVal a, hexVal b, hexVal c, hexVal d with
    | some x1, some x2, some x3, some x4 =>
      Option.map (fun p => (Char.ofNat (((x1 * 16 + x2) * 16 + x3) * 16 + x4) :: p.1, p.2))
        (parseStringBody r)
    | _, _, _, _ => none
  | '\\' :: _ => none
  | c :: r =>
    if c.toNat < 32 then none
    else Option.map (fun p => (c :: p.1, p.2)) (parseStringBody r)

mutual

/-- Fuelled JSON value grammar. -/
def parseValue : Nat → List Char → Option (JSValue × List Char)
  | 0, _ => none
  | fuel + 1, cs =>
    match skipWs cs with
    | [] => none
    | 't' :: 'r' :: 'u' :: 'e' :: rest => some (JSValue.bool true, rest)
    | 'f' :: 'a' :: 'l' :: 's' :: 'e' :: rest => some (JSValue.bool false, rest)
    | 'n' :: 'u' :: 'l' :: 'l' :: rest => some (JSValue.null, rest)
    | '"' :: rest => Option.map (fun p => (JSValue.str ⟨p.1⟩, p.2)) (parseStringBody rest)
    | '[' :: rest => parseArrayRest fuel rest
    | c :: rest =>
      if c = lbrace then parseObjectRest fuel rest
      else Option.map (fun p => (JSValue.num p.1, p.2)) (parseNumberCore (c :: rest))

/-- After an opening bracket: empty array or comma-separated elements. -/
def parseArrayRest : Nat → List Char → Option (JSValue × List Char)
  | 0, _ => none
  | fuel + 1, cs =>
    match skipWs cs with
    | ']' :: rest => some (JSValue.arr [], rest)
    | _ => Option.map (fun p => (JSValue.arr p.1, p.2)) (parseElems fuel cs)

/-- One or more array elements up to the closing bracket. -/
def parseElems : Nat → List Char → Option (List JSValue × List Char)
  | 0, _ => none
  | fuel + 1, cs =>
    match parseValue fuel cs with
    | none => none
    | some (v, rest) =>
      match skipWs rest with
      | ',' :: rest2 => Option.map (fun p => (v :: p.1, p.2)) (parseElems fuel rest2)
      | ']' :: rest2 => some ([v], rest2)
      | _ => none

/-- After an opening brace: empty object or comma-separated members. -/
def parseObjectRest : Nat → List Char → Option (JSValue × List Char)
  | 0, _ => none
  | fuel + 1, cs =>
    match skipWs cs with
    | [] => none
    | c :: rest =>
      if c = rbrace then some (JSValue.obj [], rest)
      else Option.map (fun p => (JSValue.obj p.1, p.2)) (parseMembers fuel (c :: rest))

/-- One or more object members up to the closing brace. -/
def parseMembers : Nat → List Char → Option (List (String × JSValue) × List Char)
  | 0, _ => none
  | fuel + 1, cs =>
    match skipWs cs with
    | '"' :: rest =>
      match parseStringBody rest with
      | none => none
      | some (key, rest1) =>
        match skipWs rest1 with
        | ':' :: rest2 =>
          match parseValue fuel rest2 with
          | none => none
          | some (v, rest3) =>
            match skipWs rest3 with
            | ',' :: rest4 => Option.map (fun p => ((⟨key⟩, v) :: p.1, p.2)) (parseMembers fuel rest4)
            | c :: rest4 => if c = rbrace then some ([(⟨key⟩, v)], rest4) else none
            | [] => none
        | _ => none
    | _ => none

end

/-- `JSON.parse` on a string: the whole input (modulo surrounding whitespace)
must be a single JSON value, otherwise the parse throws — modelled as `none`. -/
def jsonParse (s : String) : Option JSValue :=
  match parseValue (3 * s.data.length + 3) s.data with
  | some (v, rest) => if skipWs rest = [] then some v else none
  | none => none

/- ===== JSON.stringify(v, null, 2), modelled ===== -/

/-- A run of `n` spaces. -/
def spacesList : Nat → List Char
  | 0 => []
  | n + 1 => ' ' :: spacesList n

/-- Lowercase hexadecimal digit. -/
def hexDigit (n : Nat) : Char :=
  if n < 10 then Char.ofNat (48 + n) else Char.ofNat (87 + n)

/-- `JSON.stringify` escaping of one string character. -/
def escChar (c : Char) : List Char :=
  if c = '"' then ['\\', '"']
  else if c = '\\' then ['\\', '\\']
  else if c = Char.ofNat 8 then ['\\', 'b']
  else if c = Char.ofNat 12 then ['\\', 'f']
  else if c = '\n' then ['\\', 'n']
  else if c = '\r' then ['\\', 'r']
  else if c = '\t' then ['\\', 't']
  else if c.toNat < 32 then
    '\\' :: 'u' :: '0' :: '0' :: hexDigit (c.toNat / 16) :: [hexDigit (c.toNat % 16)]
  else [c]

/-- `JSON.stringify` escaping of a character list. -/
def escapeChars : List Char → List Char
  | [] => []
  | c :: cs => escChar c ++ escapeChars cs

/-- `JSON.stringify` of a string value: quoted and escaped. -/
def jsonQuote (s : String) : String :=
  ⟨'"' :: (escapeChars s.data ++ ['"'])⟩

/-- Join pre-rendered lines with comma-newline separators. -/
def joinCommaNl : List (List Char) → List Char
  | [] => []
  | [l] => l
  | l :: ls => l ++ ',' :: '\n' :: joinCommaNl ls

mutual

/-- `JSON.stringify(v, null, 2)` at the given current indentation. -/
def stringifyIndent : Nat → JSValue → String
  | _, .null => "null"
  | _, .bool b => if b then "true" else "false"
  | _, .num n => toString n
  | _, .str s => jsonQuote s
  | _, .arr [] => "[]"
  | ind, .arr (x :: xs) =>
    ⟨'[' :: '\n' :: (joinCommaNl (stringifyItems (ind + 2) (x :: xs)) ++
      '\n' :: (spacesList ind ++ [']']))⟩
  | _, .obj [] => ⟨[lbrace, rbrace]⟩
  | ind, .obj (p :: ps) =>
    ⟨lbrace :: '\n' :: (joinCommaNl (stringifyMembers (ind + 2) (p :: ps)) ++
      '\n' :: (spacesList ind ++ [rbrace]))⟩

/-- Indented array item lines. -/
def stringifyItems : Nat → List JSValue → List (List Char)
  | _, [] => []
  | ind, x :: xs => (spacesList ind ++ (stringifyIndent ind x).data) :: stringifyItems ind xs

/-- Indented object member lines, each as "key": value. -/
def stringifyMembers : Nat → List (String × JSValue) → List (List Char)
  | _, [] => []
  | ind, (k, v) :: ps =>
    (spacesList ind ++ ((jsonQuote k).data ++ ':' :: ' ' :: (stringifyIndent ind v).data)) ::
      stringifyMembers ind ps

end

/-- `JSON.stringify(v, null, 2)`. -/
def jsonStringify2 (v : JSValue) : String := stringifyIndent 0 v

/- ===== The recursive JSON normalizer (source lines 63 to 69) =====

   function parseJSONString(str) \x7b
     try \x7b return parseJSONString(JSON.parse(str)); \x7d
     catch (e) \x7b return str; \x7d
   \x7d

   JSON.parse coerces a non-string argument to a string first, so the
   recursion keeps re-parsing the coercion of the current value until a parse
   throws, at which point the current value is returned. On values whose
   coercion keeps parsing successfully (e.g. numbers: String(5) reparses to 5)
   the JavaScript recursion only stops when the engine's call stack overflows;
   that RangeError is caught by the innermost try/catch, which likewise
   returns the current value. The fuel below models that finite call stack;
   every property proved here is independent of the exact bound. -/

/-- One normalizer recursion per unit of fuel; when fuel runs out (the call
stack overflows) the current value is returned, exactly as the catch does. -/
def parseJSONStringFuel : Nat → JSValue → JSValue
  | 0, v => v
  | fuel + 1, v =>
    match jsonParse (jsToString v) with
    | some v2 => parseJSONStringFuel fuel v2
    | none => v

/-- `parseJSONString` from the source, at the model's stack bound. -/
def parseJSONString (v : JSValue) : JSValue := parseJSONStringFuel 100 v

/- ===== formatJSONString (source lines 71 to 85) ===== -/

/-- `formatJSONString`: normalize, then pretty-print structured values with
two-space indentation and re-quote primitives (`JSON.stringify(String(parsed))`).
The source's try/catch is unreachable here: neither the normalizer nor
stringify can throw on these values. -/
def formatJSONString (v : JSValue) : String :=
  let parsed := parseJSONString v
  if jsTypeofObject parsed then jsonStringify2 parsed
  else jsonQuote (jsToString parsed)

/- ===== URL classifier (source lines 88 to 99) ===== -/

/-- JavaScript `String.prototype.startsWith`. -/
def strStartsWith (s p : String) : Bool := p.data.isPrefixOf s.data

/-- `isDataUrl` (source line 88): the reference begins with the inline-data
scheme marker. -/
def isDataUrl (url : String) : Bool := strStartsWith url "data:"

/-- `isAbsoluteUrl` (source line 92): explicit http or https scheme. -/
def isAbsoluteUrl (url : String) : Bool :=
  strStartsWith url "http://" || strStartsWith url "https://"

/-- `getDataUrlMimeType` (source lines 96 to 99): the regex ^data:([^;]+)
captures the maximal nonempty run of non-semicolon characters after the
"data:" anchor; no match yields the empty string. (An empty run makes the
regex fail and the source return '', which coincides with the empty
takeWhile result below.) -/
def getDataUrlMimeType (dataUrl : String) : String :=
  if strStartsWith dataUrl "data:" then
    ⟨(dataUrl.data.drop 5).takeWhile (fun c => c != ';')⟩
  else ""

/- ===== Content-Type prober (source lines 101 to 124) ===== -/

/-- The response the fetch resolved with: its content-type header, if present. -/
structure FetchResponse where
  contentType : Option String

/-- Outcome of the awaited fetch: either a response (headers received) or a
rejection carrying the error's name. -/
inductive FetchOutcome where
  | resolved : FetchResponse → FetchOutcome
  | rejected : String → FetchOutcome

/-- Observable outcome of `getContentTypeFromServer`: the returned string and
whether the catch block logged the error to the console. -/
structure ProbeResult where
  result : String
  loggedError : Bool

/-- `getContentTypeFromServer` (source lines 101 to 124). On a resolved fetch
the controller is aborted immediately after header receipt (the deliberate
cancellation; `controller.abort()` itself cannot throw here) and the function
returns `response.headers.get('content-type') || ''`. On a rejection it
returns '' and logs the error only when its name is not 'AbortError'. -/
def getContentTypeFromServer : FetchOutcome → ProbeResult
  | .resolved resp =>
    { result :=
        match resp.contentType with
        | some ct => if ct = "" then "" else ct
        | none => ""
      loggedError := false }
  | .rejected errName =>
    { result := ""
      loggedError := if errName = "AbortError" then false else true }

/- ===== determineFileType (source lines 134 to 147) ===== -/

/-- `determineFileType`: data URLs resolve synchronously via the marker;
non-empty remote references resolve to the probe's result. The network is
abstracted as `net`, mapping each URL to its fetch outcome. -/
def determineFileType (net : String → FetchOutcome) (file : String) : String :=
  if isDataUrl file then getDataUrlMimeType file
  else if file = "" then ""
  else (getContentTypeFromServer (net file)).result

/- ===== Per-index maps (JavaScript objects keyed by array index) ===== -/

/-- A JavaScript object keyed by numeric index, as used for `fileTypes` and
`loadingFileTypes`: a partial map from indices to values. -/
def OMap (β : Type) : Type := Nat → Option β

/-- Property assignment `m[k] = v`. -/
def mapSet {β : Type} (m : OMap β) (k : Nat) (v : β) : OMap β :=
  fun q => if q = k then some v else m q

/-- Object spread merge: every key of `b` overrides `a`. -/
def mapMerge {β : Type} (a b : OMap β) : OMap β :=
  fun q => match b q with
    | some v => some v
    | none => a q

/-- The empty object. -/
def emptyMap {β : Type} : OMap β := fun _ => none

/-- `loadingFileTypes[idx] || false`, the read the render site performs. -/
def lookupB (m : OMap Bool) (k : Nat) : Bool := (m k).getD false

/- ===== updateFileTypes (source lines 153 to 172), sequential semantics =====

   async function updateFileTypes(files) \x7b
     const newFileTypes = \x7b\x7d; const newLoadingStates = \x7b\x7d;
     for (let i = 0; i < files.length; i++) \x7b
       const file = files[i];
       if (!isDataUrl(file)) \x7b
         newLoadingStates[i] = true;
         loadingFileTypes = \x7b...loadingFileTypes, ...newLoadingStates\x7d;
       \x7d
       newFileTypes[i] = await determineFileType(file);
       newLoadingStates[i] = false;
     \x7d
     fileTypes = newFileTypes; loadingFileTypes = newLoadingStates;
   \x7d

   The observable instants of `loadingFileTypes` are its reassignments: the
   pre-probe merge at each remote index, and the final wholesale assignment.
   `snaps` below records exactly those states, in order. -/

/-- State produced by one (uninterrupted) run of `updateFileTypes`. -/
structure SeqRun where
  snaps : List (OMap Bool)
  finalLoading : OMap Bool
  finalTypes : OMap String

/-- The loop of `updateFileTypes`: walks the list from index `i`, with `g`
the current global `loadingFileTypes`, `nls` the run-local `newLoadingStates`
and `nft` the run-local `newFileTypes`. -/
def updateLoop (net : String → FetchOutcome) :
    List String → Nat → OMap Bool → OMap Bool → OMap String → SeqRun
  | [], _, _, nls, nft => ⟨[], nls, nft⟩
  | f :: rest, i, g, nls, nft =>
    if isDataUrl f then
      updateLoop net rest (i + 1) g (mapSet nls i false)
        (mapSet nft i (determineFileType net f))
    else
      let nls1 := mapSet nls i true
      let g2 := mapMerge g nls1
      let r := updateLoop net rest (i + 1) g2 (mapSet nls1 i false)
        (mapSet nft i (determineFileType net f))
      ⟨g2 :: r.snaps, r.finalLoading, r.finalTypes⟩

/-- One uninterrupted run of `updateFileTypes` on a fresh panel
(`loadingFileTypes` starts as the empty object); the final wholesale
assignment is the last observable state. -/
def updateFileTypes (net : String → FetchOutcome) (files : List String) : SeqRun :=
  let r := updateLoop net files 0 emptyMap emptyMap emptyMap
  ⟨r.snaps ++ [r.finalLoading], r.finalLoading, r.finalTypes⟩

/- ===== updateFileTypes, suspension-point decomposition =====

   Each loop iteration contains one `await`, so a run decomposes into the
   synchronous segments between suspension points. The global writes each
   segment performs are data: remote indices merge the run-local loading map
   into the shared state before the await; inline-data indices write nothing
   before their await; the epilogue after the last await assigns both shared
   maps wholesale. Svelte components are single-threaded, so concurrent runs
   (a superseded resolution and its successor) interleave at exactly these
   suspension points. -/

/-- One synchronous segment of an `updateFileTypes` run, identified by the
global writes it performs. -/
inductive Seg where
  | pause : Seg
  | mergeLoading : OMap Bool → Seg
  | finalize : OMap String → OMap Bool → Seg

/-- The shared component state both maps live in. -/
structure GState where
  fileTypes : OMap String
  loading : OMap Bool

/-- Apply one segment's writes to the shared state. -/
def execSeg (g : GState) : Seg → GState
  | .pause => g
  | .mergeLoading nls => ⟨g.fileTypes, mapMerge g.loading nls⟩
  | .finalize ts nls => ⟨ts, nls⟩

/-- Run a schedule of segments in order. -/
def execSched (segs : List Seg) (g : GState) : GState :=
  segs.foldl execSeg g

/-- Segment decomposition of the `updateFileTypes` loop: one segment per
index (its pre-await writes), threading the run-local maps. -/
def segLoop (net : String → FetchOutcome) :
    List String → Nat → OMap Bool → OMap String → (List Seg × OMap Bool × OMap String)
  | [], _, nls, nft => ([], nls, nft)
  | f :: rest, i, nls, nft =>
    if isDataUrl f then
      let r := segLoop net rest (i + 1) (mapSet nls i false)
        (mapSet nft i (determineFileType net f))
      (Seg.pause :: r.1, r.2)
    else
      let nls1 := mapSet nls i true
      let r := segLoop net rest (i + 1) (mapSet nls1 i false)
        (mapSet nft i (determineFileType net f))
      (Seg.mergeLoading nls1 :: r.1, r.2)

/-- The full segment list of one `updateFileTypes(files)` run: the per-index
segments followed by the epilogue's two wholesale assignments. -/
def runSegs (net : String → FetchOutcome) (files : List String) : List Seg :=
  let r := segLoop net files 0 emptyMap emptyMap
  r.1 ++ [Seg.finalize r.2.2 r.2.1]

/-- The `newFileTypes` map a completed resolution of `files` computes: the
correct ResolutionState contents for that list. -/
def resolveTypesMap (net : String → FetchOutcome) (files : List String) : OMap String :=
  (segLoop net files 0 emptyMap emptyMap).2.2

/-- `cs` is an order-preserving interleaving of `as` and `bs`: the schedules a
single-threaded event loop can produce for two concurrent runs. -/
inductive Interleaving : List Seg → List Seg → List Seg → Prop where
  | nil : Interleaving [] [] []
  | left : ∀ {a : Seg} {as bs cs : List Seg},
      Interleaving as bs cs → Interleaving (a :: as) bs (a :: cs)
  | right : ∀ {b : Seg} {as bs cs : List Seg},
      Interleaving as bs cs → Interleaving as (b :: bs) (b :: cs)

/- ===== The reactive files trigger (source lines 174 to 178) ===== -/

/-- Models the external html-entities `decode` helper on a character list,
restricted to the basic named entities; it is the identity on strings
without an ampersand, which covers every payload considered here. -/
def htmlDecodeList : List Char → List Char
  | [] => []
  | '&' :: 'a' :: 'm' :: 'p' :: ';' :: rest => '&' :: htmlDecodeList rest
  | '&' :: 'l' :: 't' :: ';' :: rest => '<' :: htmlDecodeList rest
  | '&' :: 'g' :: 't' :: ';' :: rest => '>' :: htmlDecodeList rest
  | '&' :: 'q' :: 'u' :: 'o' :: 't' :: ';' :: rest => '"' :: htmlDecodeList rest
  | '&' :: '#' :: '3' :: '9' :: ';' :: rest => '\'' :: htmlDecodeList rest
  | c :: rest => c :: htmlDecodeList rest

/-- The html-entities `decode` import used on attribute payloads. -/
def decode (s : String) : String := ⟨htmlDecodeList s.data⟩

/-- The attribute fields the reactive statement at source lines 175 to 178
reads: `attributes?.done` and `attributes?.files` (absent fields are `none`). -/
structure Attributes where
  done : Option String
  files : Option String

/-- The guard of the reactive statement (source line 175):
`attributes?.done === 'true' && parseJSONString(decode(attributes?.files ?? ''))`
with the second conjunct read through JavaScript truthiness. -/
def filesReactiveCondition (attrs : Attributes) : Bool :=
  (attrs.done == some "true") &&
    jsTruthy (parseJSONString (JSValue.str (decode (attrs.files.getD ""))))

/-- One evaluation of the reactive statement: when the guard holds,
`updateFileTypes` is invoked with the decoded files value; otherwise nothing
is invoked. -/
def reactiveFilesStep (attrs : Attributes) : Option JSValue :=
  if filesReactiveCondition attrs then
    some (parseJSONString (JSValue.str (decode (attrs.files.getD ""))))
  else none

/- ===== Disclosure controller (source lines 41, 57 to 59, 185 to 191) ===== -/

/-- Disclosure state together with the log of `onChange` invocations, in
order, each carrying the boolean it was called with. -/
structure PanelState where
  isOpen : Bool
  notifications : List Bool

/-- Panel construction: `open` is seeded by the caller and the reactive
statement `$: onChange(open)` runs once during initialization with that
seed. (`isOpen` models the source's `open` binding.) -/
def initPanel (seed : Bool) : PanelState := ⟨seed, [seed]⟩

/-- The header's pointerup handler (source lines 187 to 191): when not
disabled, flip `open`; the reactive statement then invokes `onChange` once
with the new value. When disabled, nothing happens. -/
def pointerupToggle (disabled : Bool) (s : PanelState) : PanelState :=
  if !disabled then ⟨!s.isOpen, s.notifications ++ [!s.isOpen]⟩
  else s

/- ===== Presentation dispatcher (source lines 332 to 404) ===== -/

/-- JavaScript `String.prototype.includes` on character lists. -/
def containsSeq (needle : List Char) : List Char → Bool
  | [] => needle.isEmpty
  | c :: rest => needle.isPrefixOf (c :: rest) || containsSeq needle rest

/-- JavaScript `String.prototype.includes`. -/
def strIncludes (s sub : String) : Bool := containsSeq sub.data s.data

/-- The six rendering branches of the files each-block, plus the loading
placeholder and the empty-reference non-render. -/
inductive RenderBranch where
  | loadingPlaceholder : RenderBranch
  | image : RenderBranch
  | audio : RenderBranch
  | video : RenderBranch
  | pdfViewer : RenderBranch
  | textPreview : RenderBranch
  | genericFile : RenderBranch
  | nothing : RenderBranch
deriving DecidableEq

/-- The files each-block dispatcher (source lines 337 to 404): the branch
chosen for one item, as a function of the reference, its resolved
content-type and its loading flag, in the source's textual order. -/
def dispatchFile (file contentType : String) (isLoading : Bool) : RenderBranch :=
  if isLoading then .loadingPlaceholder
  else if strStartsWith contentType "image/" then .image
  else if strStartsWith contentType "audio/" then .audio
  else if strStartsWith contentType "video/" then .video
  else if strIncludes contentType "pdf" then .pdfViewer
  else if strStartsWith contentType "text/" || strIncludes contentType "json"
    || strIncludes contentType "xml" then .textPreview
  else if file = "" then .nothing
  else .genericFile

/-- Modelled from the spec: the precedence list of section 4.5, rules 1
through 8, written from the spec's words for the refinement comparison with
`dispatchFile`. -/
def dispatchPerSpec (file contentType : String) (isLoading : Bool) : RenderBranch :=
  if isLoading then .loadingPlaceholder
  else if strStartsWith contentType "image/" then .image
  else if strStartsWith contentType "audio/" then .audio
  else if strStartsWith contentType "video/" then .video
  else if strIncludes contentType "pdf" then .pdfViewer
  else if strStartsWith contentType "text/" || strIncludes contentType "json"
    || strIncludes contentType "xml" then .textPreview
  else if file = "" then .nothing
  else .genericFile

/- ========================= Theorems ========================= -/

/-- C1: the Presentation Dispatcher selects exactly one rendering branch per
attachment item, as a total function of the reference, the resolved MIME
type and the loading flag, and its branch order coincides with the spec's
precedence list (rules 1 to 8); in particular a loading item takes the
loading placeholder regardless of MIME type, and "application/pdf" with
isLoading false takes the document viewer. -/
theorem dispatcher_precedence (file mt : String) (l : Bool) :
    dispatchFile file mt l = dispatchPerSpec file mt l
    ∧ dispatchFile file mt true = RenderBranch.loadingPlaceholder
    ∧ dispatchFile file "application/pdf" false = RenderBranch.pdfViewer :=
  ⟨rfl, rfl, rfl⟩

/-- C8: a pointerup toggle while not disabled flips the open state and
appends exactly one `onChange` notification carrying the new value (true
when toggling from closed), and a toggle while disabled leaves the state and
the notification log untouched. -/
theorem toggle_transition (s : PanelState) :
    (pointerupToggle false s).isOpen = !s.isOpen
    ∧ (pointerupToggle false s).notifications = s.notifications ++ [!s.isOpen]
    ∧ (pointerupToggle false ⟨false, s.notifications⟩).notifications
        = s.notifications ++ [true]
    ∧ pointerupToggle true s = s :=
  ⟨rfl, rfl, rfl, rfl⟩

/-- C10: on panel construction the reactive statement invokes `onChange` once
with the seeded open value, before any user toggle: the notification log of a
freshly constructed panel is exactly `[seed]`. -/
theorem init_notifies_seed (seed : Bool) :
    (initPanel seed).notifications = [seed] ∧ (initPanel seed).isOpen = seed :=
  ⟨rfl, rfl⟩

/-- C5: the normalizer never throws and falls back to its input: whenever
JSON parsing of the held string fails, `parseJSONString` returns that string
unchanged (the function is total by construction, mirroring the source's
catch-all). -/
theorem parseJSONString_fallback (s : String) (h : jsonParse s = none) :
    parseJSONString (JSValue.str s) = JSValue.str s := by
  show parseJSONStringFuel (99 + 1) (JSValue.str s) = JSValue.str s
  simp only [parseJSONStringFuel, jsToString, h]

/-- C5 witness: "not json" is not valid JSON and normalizes to itself. -/
theorem parseJSONString_fallback_witness :
    jsonParse "not json" = none
    ∧ parseJSONString (JSValue.str "not json") = JSValue.str "not json" :=
  ⟨rfl, parseJSONString_fallback "not json" rfl⟩

/-- C6: the prober returns the declared content-type header value, the empty
string when the header is absent or the request fails for any reason, and
the deliberate cancellation is never surfaced: a resolved probe (whose abort
follows header receipt) logs nothing, and an AbortError rejection yields the
empty string without an error log, while every other rejection is logged. -/
theorem probe_result_contract (resp : FetchResponse) (v errName : String) :
    (resp.contentType = some v → v ≠ "" →
      (getContentTypeFromServer (FetchOutcome.resolved resp)).result = v)
    ∧ (resp.contentType = none →
      (getContentTypeFromServer (FetchOutcome.resolved resp)).result = "")
    ∧ (getContentTypeFromServer (FetchOutcome.resolved resp)).loggedError = false
    ∧ (getContentTypeFromServer (FetchOutcome.rejected errName)).result = ""
    ∧ (getContentTypeFromServer (FetchOutcome.rejected "AbortError")).loggedError = false
    ∧ (errName ≠ "AbortError" →
      (getContentTypeFromServer (FetchOutcome.rejected errName)).loggedError = true) := by
  refine ⟨?_, ?_, rfl, rfl, by simp [getContentTypeFromServer], ?_⟩
  · intro h hne
    simp [getContentTypeFromServer, h, hne]
  · intro h
    simp [getContentTypeFromServer, h]
  · intro h
    simp [getContentTypeFromServer, h]

/-- C6 witness: a resolved probe with header "text/html" returns it, and a
TypeError rejection is logged. -/
theorem probe_result_contract_witness :
    (getContentTypeFromServer (FetchOutcome.resolved ⟨some "text/html"⟩)).result = "text/html"
    ∧ (getContentTypeFromServer (FetchOutcome.rejected "TypeError")).loggedError = true :=
  ⟨(probe_result_contract ⟨some "text/html"⟩ "text/html" "TypeError").1 rfl (by decide),
   (probe_result_contract ⟨some "text/html"⟩ "text/html" "TypeError").2.2.2.2.2 (by decide)⟩

/-- C7 counterexample: the reactive trigger is conditioned on the `done`
attribute field. With the same decoded files value "[\"a\"]" (a nonempty,
truthy list), `updateFileTypes` is invoked when `done` is 'true' but not
when `done` is 'false' — refuting "not conditioned on other attribute
fields". -/
theorem reactive_trigger_needs_done :
    (reactiveFilesStep ⟨some "true", some "[\"a\"]"⟩).isSome = true
    ∧ reactiveFilesStep ⟨some "false", some "[\"a\"]"⟩ = none :=
  ⟨rfl, rfl⟩

/-- C7 amended: the pipeline re-runs on attribute changes exactly when
`done === 'true'` and the decoded files value is truthy, in which case
`updateFileTypes` receives the freshly decoded files value. -/
theorem reactive_trigger_characterization (attrs : Attributes) (v : JSValue) :
    reactiveFilesStep attrs = some v ↔
      (attrs.done = some "true"
        ∧ jsTruthy (parseJSONString (JSValue.str (decode (attrs.files.getD "")))) = true
        ∧ v = parseJSONString (JSValue.str (decode (attrs.files.getD "")))) := by
  unfold reactiveFilesStep filesReactiveCondition
  by_cases hd : attrs.done = some "true"
  · by_cases ht : jsTruthy (parseJSONString (JSValue.str (decode (attrs.files.getD "")))) = true
    · simp [hd, ht]
      exact eq_comm
    · simp [hd, ht]
  · simp [hd]

/-- C7 amended witness: with done 'true' and files "[\"a\"]" the trigger
fires and hands the decoded list to `updateFileTypes`. -/
theorem reactive_trigger_characterization_witness :
    reactiveFilesStep ⟨some "true", some "[\"a\"]"⟩ = some (JSValue.arr [JSValue.str "a"]) :=
  (reactive_trigger_characterization ⟨some "true", some "[\"a\"]"⟩
    (JSValue.arr [JSValue.str "a"])).mpr ⟨rfl, rfl, rfl⟩

/-- Characters before an appended semicolon are exactly what takeWhile keeps. -/
theorem takeWhile_until_semi (l r : List Char) (hl : ';' ∉ l) :
    (l ++ ';' :: r).takeWhile (fun c => c != ';') = l := by
  induction l with
  | nil => simp
  | cons c cs ih =>
    have hc : c ≠ ';' := fun h => hl (h ▸ List.mem_cons_self c cs)
    have hcs : ';' ∉ cs := fun h => hl (List.mem_cons_of_mem c h)
    simp [List.takeWhile_cons, hc, ih hcs]

/-- C9: `getDataUrlMimeType` returns the substring between the "data:" prefix
and the first semicolon, and the empty string when the marker is absent
(the reference does not start with "data:"). -/
theorem getDataUrlMimeType_extracts (m rest : String) (hm : ';' ∉ m.data) :
    getDataUrlMimeType ("data:" ++ m ++ ";" ++ rest) = m
    ∧ ∀ s : String, strStartsWith s "data:" = false → getDataUrlMimeType s = "" := by
  constructor
  · have hdata : ("data:" ++ m ++ ";" ++ rest).data
        = 'd' :: 'a' :: 't' :: 'a' :: ':' :: (m.data ++ ';' :: rest.data) := by
      simp [String.data_append]
    unfold getDataUrlMimeType strStartsWith
    rw [hdata]
    simp only [List.isPrefixOf, List.drop]
    rw [if_pos (by simp)]
    rw [takeWhile_until_semi m.data rest.data hm]
  · intro s hs
    unfold getDataUrlMimeType
    rw [hs]
    simp

/-- C9 witness: "data:image/png;base64,AA==" yields "image/png", and a plain
https reference yields the empty string. -/
theorem getDataUrlMimeType_extracts_witness :
    (';' ∉ "image/png".data)
    ∧ getDataUrlMimeType "data:image/png;base64,AA==" = "image/png"
    ∧ getDataUrlMimeType "https://example.com/x" = "" :=
  ⟨by decide,
   (getDataUrlMimeType_extracts "image/png" "base64,AA==" (by decide)).1,
   (getDataUrlMimeType_extracts "image/png" "base64,AA==" (by decide)).2
     "https://example.com/x" (by decide)⟩

/-- C4 counterexample: x = [5] is a structured value that round-trips through
the two-space JSON serialization, yet normalize(format(x)) is the number 5,
not [5]: JSON.parse coerces [5] to the string "5", which re-parses, so the
normalizer collapses the singleton list to its element before formatting. -/
theorem normalize_format_fails_on_list_five :
    jsonParse (jsonStringify2 (JSValue.arr [JSValue.num 5]))
      = some (JSValue.arr [JSValue.num 5])
    ∧ jsStructured (JSValue.arr [JSValue.num 5]) = true
    ∧ parseJSONString (JSValue.str (formatJSONString (JSValue.arr [JSValue.num 5])))
      ≠ JSValue.arr [JSValue.num 5] :=
  ⟨rfl, rfl, fun h => absurd (congrArg JSValue.tag h) (by decide)⟩

/-- C4 amended: for every structured value x (object or list) that
round-trips through the two-space JSON serialization and on which the
normalizer is already a fixed point — that is, the JavaScript string
coercion of x is not itself parseable JSON — normalize(format(x)) = x. -/
theorem normalize_format_roundtrip (x : JSValue)
    (hstruct : jsStructured x = true)
    (hfix : jsonParse (jsToString x) = none)
    (hrt : jsonParse (jsonStringify2 x) = some x) :
    parseJSONString (JSValue.str (formatJSONString x)) = x := by
  have hfuel : ∀ f, parseJSONStringFuel f x = x := by
    intro f
    cases f with
    | zero => rfl
    | succ f => simp only [parseJSONStringFuel, hfix]
  have htyp : jsTypeofObject x = true := by
    cases x <;> simp_all [jsStructured, jsTypeofObject]
  have hfmt : formatJSONString x = jsonStringify2 x := by
    simp only [formatJSONString]
    rw [show parseJSONString x = x from hfuel 100, htyp]
    simp
  rw [hfmt]
  show parseJSONStringFuel (99 + 1) (JSValue.str (jsonStringify2 x)) = x
  simp only [parseJSONStringFuel, jsToString, hrt]
  exact hfuel 99

/-- C4 amended witness: x = ["a"] is structured, its coercion "a" is not
JSON, it round-trips through the pretty-printer, and normalize(format(x))
gives back ["a"]. -/
theorem normalize_format_roundtrip_witness :
    jsStructured (JSValue.arr [JSValue.str "a"]) = true
    ∧ jsonParse (jsToString (JSValue.arr [JSValue.str "a"])) = none
    ∧ jsonParse (jsonStringify2 (JSValue.arr [JSValue.str "a"]))
        = some (JSValue.arr [JSValue.str "a"])
    ∧ parseJSONString (JSValue.str (formatJSONString (JSValue.arr [JSValue.str "a"])))
        = JSValue.arr [JSValue.str "a"] :=
  ⟨rfl, rfl, rfl, normalize_format_roundtrip (JSValue.arr [JSValue.str "a"]) rfl rfl rfl⟩

/-- Reading a Bool map entry as `|| false` yields true exactly on a stored
`true`. -/
theorem lookupB_eq_true_iff (m : OMap Bool) (k : Nat) :
    lookupB m k = true ↔ m k = some true := by
  unfold lookupB
  cases h : m k with
  | none => simp
  | some b => cases b <;> simp

/-- Invariant of the `updateFileTypes` loop: entering iteration `i`, the
run-local loading map holds `false` exactly below `i` and the shared map has
no `true` at or above `i`. Then the final run-local map is all-`false` on the
processed range, and every observable snapshot has exactly one loading index,
which is a remote (non inline-data) item of the list. -/
theorem updateLoop_invariant (net : String → FetchOutcome) :
    ∀ (files : List String) (i : Nat) (g nls : OMap Bool) (nft : OMap String),
    (∀ k, nls k = if k < i then some false else none) →
    (∀ k, i ≤ k → g k ≠ some true) →
    ((∀ k, (updateLoop net files i g nls nft).finalLoading k
        = if k < i + files.length then some false else none)
     ∧ (∀ m, m ∈ (updateLoop net files i g nls nft).snaps →
        ∃ j, i ≤ j ∧ j < i + files.length
          ∧ isDataUrl (files.getD (j - i) "") = false
          ∧ ∀ k, (lookupB m k = true ↔ k = j))) := by
  intro files
  induction files with
  | nil =>
    intro i g nls nft hnls hg
    constructor
    · intro k
      simpa [updateLoop] using hnls k
    · intro m hm
      simp [updateLoop] at hm
  | cons f rest ih =>
    intro i g nls nft hnls hg
    cases hf : isDataUrl f with
    | true =>
      have hrw : updateLoop net (f :: rest) i g nls nft
          = updateLoop net rest (i + 1) g (mapSet nls i false)
              (mapSet nft i (determineFileType net f)) := by
        simp [updateLoop, hf]
      have hn2 : ∀ k, (mapSet nls i false) k = if k < i + 1 then some false else none := by
        intro k
        by_cases hk : k = i
        · simp [mapSet, hk]
        · simp only [mapSet, if_neg hk]
          rw [hnls k]
          rcases Nat.lt_or_ge k i with h | h
          · rw [if_pos h, if_pos (by omega)]
          · rw [if_neg (by omega), if_neg (by omega)]
      have hg2 : ∀ k, i + 1 ≤ k → g k ≠ some true := fun k hk => hg k (by omega)
      obtain ⟨ha, hb⟩ := ih (i + 1) g (mapSet nls i false)
        (mapSet nft i (determineFileType net f)) hn2 hg2
      rw [hrw]
      constructor
      · intro k
        rw [ha k]
        have hlen : i + 1 + rest.length = i + (f :: rest).length := by
          simp [List.length_cons]; omega
        rw [hlen]
      · intro m hm
        obtain ⟨j, hj1, hj2, hj3, hj4⟩ := hb m hm
        refine ⟨j, by omega, by simp [List.length_cons]; omega, ?_, hj4⟩
        have hsub : j - i = (j - (i + 1)) + 1 := by omega
        rw [hsub]
        simpa using hj3
    | false =>
      have hrw : updateLoop net (f :: rest) i g nls nft
          = ⟨mapMerge g (mapSet nls i true) ::
              (updateLoop net rest (i + 1) (mapMerge g (mapSet nls i true))
                (mapSet (mapSet nls i true) i false)
                (mapSet nft i (determineFileType net f))).snaps,
             (updateLoop net rest (i + 1) (mapMerge g (mapSet nls i true))
                (mapSet (mapSet nls i true) i false)
                (mapSet nft i (determineFileType net f))).finalLoading,
             (updateLoop net rest (i + 1) (mapMerge g (mapSet nls i true))
                (mapSet (mapSet nls i true) i false)
                (mapSet nft i (determineFileType net f))).finalTypes⟩ := by
        simp [updateLoop, hf]
      have hn2 : ∀ k, (mapSet (mapSet nls i true) i false) k
          = if k < i + 1 then some false else none := by
        intro k
        by_cases hk : k = i
        · simp [mapSet, hk]
        · simp only [mapSet, if_neg hk]
          rw [hnls k]
          rcases Nat.lt_or_ge k i with h | h
          · rw [if_pos h, if_pos (by omega)]
          · rw [if_neg (by omega), if_neg (by omega)]
      have hg2 : ∀ k, i + 1 ≤ k → (mapMerge g (mapSet nls i true)) k ≠ some true := by
        intro k hk
        have hki : ¬(k = i) := by omega
        have hnk : nls k = none := by rw [hnls k]; rw [if_neg (by omega)]
        simp only [mapMerge, mapSet, if_neg hki, hnk]
        exact hg k (by omega)
      obtain ⟨ha, hb⟩ := ih (i + 1) (mapMerge g (mapSet nls i true))
        (mapSet (mapSet nls i true) i false)
        (mapSet nft i (determineFileType net f)) hn2 hg2
      rw [hrw]
      constructor
      · intro k
        show (updateLoop net rest (i + 1) _ _ _).finalLoading k = _
        rw [ha k]
        have hlen : i + 1 + rest.length = i + (f :: rest).length := by
          simp [List.length_cons]; omega
        rw [hlen]
      · intro m hm
        rcases List.mem_cons.mp hm with hme | hmr
        · refine ⟨i, le_refl i, by simp [List.length_cons], by simpa using hf, ?_⟩
          intro k
          rw [hme, lookupB_eq_true_iff]
          constructor
          · intro hk
            by_contra hki
            rcases Nat.lt_or_ge k i with h | h
            · have : (mapSet nls i true) k = some false := by
                simp only [mapSet, if_neg hki]
                rw [hnls k, if_pos h]
              simp only [mapMerge, this] at hk
              exact Option.noConfusion hk (fun hb => Bool.noConfusion hb)
            · have hik : i < k := by omega
              have : (mapSet nls i true) k = none := by
                simp only [mapSet, if_neg hki]
                rw [hnls k, if_neg (by omega)]
              simp only [mapMerge, this] at hk
              exact hg k (by omega) hk
          · intro hk
            subst hk
            simp [mapMerge, mapSet]
        · obtain ⟨j, hj1, hj2, hj3, hj4⟩ := hb m hmr
          refine ⟨j, by omega, by simp [List.length_cons]; omega, ?_, hj4⟩
          have hsub : j - i = (j - (i + 1)) + 1 := by omega
          rw [hsub]
          simpa using hj3

/-- C2: while `updateFileTypes` resolves a files list on a fresh panel, at
most one index has its loading flag true at any observable instant (every
such index is a remote item — so inline-data references are never marked
loading), and after the run completes every index reads false. -/
theorem sequencer_sequential_loading (net : String → FetchOutcome) (files : List String) :
    (∀ m, m ∈ (updateFileTypes net files).snaps → ∀ k1 k2,
        lookupB m k1 = true → lookupB m k2 = true → k1 = k2)
    ∧ (∀ k, lookupB (updateFileTypes net files).finalLoading k = false)
    ∧ (∀ m, m ∈ (updateFileTypes net files).snaps → ∀ k,
        isDataUrl (files.getD k "") = true → lookupB m k = false) := by
  obtain ⟨ha, hb⟩ := updateLoop_invariant net files 0 emptyMap emptyMap emptyMap
    (fun k => by simp [emptyMap]) (fun k _ => by simp [emptyMap])
  have hfinal : ∀ k,
      lookupB (updateLoop net files 0 emptyMap emptyMap emptyMap).finalLoading k = false := by
    intro k
    unfold lookupB
    rw [ha k]
    split <;> rfl
  refine ⟨?_, ?_, ?_⟩
  · intro m hm k1 k2 h1 h2
    have hm2 : m ∈ (updateLoop net files 0 emptyMap emptyMap emptyMap).snaps
        ++ [(updateLoop net files 0 emptyMap emptyMap emptyMap).finalLoading] := hm
    rcases List.mem_append.mp hm2 with h | h
    · obtain ⟨j, _, _, _, hj4⟩ := hb m h
      rw [(hj4 k1).mp h1, (hj4 k2).mp h2]
    · have hmf : m = (updateLoop net files 0 emptyMap emptyMap emptyMap).finalLoading := by
        simpa using h
      rw [hmf, hfinal k1] at h1
      exact absurd h1 (by simp)
  · intro k
    exact hfinal k
  · intro m hm k hk
    have hm2 : m ∈ (updateLoop net files 0 emptyMap emptyMap emptyMap).snaps
        ++ [(updateLoop net files 0 emptyMap emptyMap emptyMap).finalLoading] := hm
    rcases List.mem_append.mp hm2 with h | h
    · obtain ⟨j, hj1, hj2, hj3, hj4⟩ := hb m h
      rw [Nat.sub_zero] at hj3
      cases hkt : lookupB m k with
      | false => rfl
      | true =>
        have hkj : k = j := (hj4 k).mp hkt
        rw [hkj, hj3] at hk
        exact absurd hk (by simp)
    · have hmf : m = (updateLoop net files 0 emptyMap emptyMap emptyMap).finalLoading := by
        simpa using h
      rw [hmf]
      exact hfinal k

/-- C2 witness: on the list ["/a", inline, "/b"] with a fixed network, the
first snapshot (index 0 probing) never marks the inline index 1, the final
state reads false everywhere, and a snapshot's loading indices are unique. -/
theorem sequencer_sequential_loading_witness :
    lookupB ((updateFileTypes (fun _ => FetchOutcome.resolved ⟨some "text/html"⟩)
        ["/a", "data:text/plain;base64,aGk=", "/b"]).snaps.get
        ⟨0, by decide⟩) 1 = false
    ∧ lookupB (updateFileTypes (fun _ => FetchOutcome.resolved ⟨some "text/html"⟩)
        ["/a", "data:text/plain;base64,aGk=", "/b"]).finalLoading 0 = false
    ∧ (0 : Nat) = 0 := by
  refine ⟨?_, ?_, ?_⟩
  · exact (sequencer_sequential_loading (fun _ => FetchOutcome.resolved ⟨some "text/html"⟩)
      ["/a", "data:text/plain;base64,aGk=", "/b"]).2.2 _
      (List.get_mem _ _ _) 1 (by decide)
  · exact (sequencer_sequential_loading (fun _ => FetchOutcome.resolved ⟨some "text/html"⟩)
      ["/a", "data:text/plain;base64,aGk=", "/b"]).2.1 0
  · exact (sequencer_sequential_loading (fun _ => FetchOutcome.resolved ⟨some "text/html"⟩)
      ["/a", "data:text/plain;base64,aGk=", "/b"]).1
      ((updateFileTypes (fun _ => FetchOutcome.resolved ⟨some "text/html"⟩)
        ["/a", "data:text/plain;base64,aGk=", "/b"]).snaps.get ⟨0, by decide⟩)
      (List.get_mem _ 0 (by decide)) 0 0 (by decide) (by decide)

/-- A run interleaved with nothing is itself. -/
theorem interleaving_nil_right : ∀ as : List Seg, Interleaving as [] as
  | [] => .nil
  | _ :: as => .left (interleaving_nil_right as)

/-- Running all of `bs` first, then all of `as`, is a valid interleaving. -/
theorem interleaving_all_right : ∀ (as bs : List Seg), Interleaving as bs (bs ++ as)
  | as, [] => interleaving_nil_right as
  | as, _ :: bs => .right (interleaving_all_right as bs)

/-- The first run executes one segment, then the second run executes fully,
then the first run's continuation resumes: a valid single-threaded schedule. -/
theorem interleaving_head_left (a : Seg) (as bs : List Seg) :
    Interleaving (a :: as) bs (a :: (bs ++ as)) :=
  .left (interleaving_all_right as bs)

/-- The network used by the staleness scenario. -/
def netCex : String → FetchOutcome :=
  fun _ => FetchOutcome.resolved ⟨some "application/octet-stream"⟩

/-- The superseded files list: one remote reference. -/
def filesOld : List String := ["/remote.bin"]

/-- The superseding files list: one inline-data reference. -/
def filesNew : List String := ["data:text/plain;base64,aGk="]

/-- The schedule in which the old run suspends at its probe, the new run
(triggered by the files change) then completes, and finally the old run's
continuation resumes. -/
def schedCex : List Seg :=
  (runSegs netCex filesOld).take 1 ++
    (runSegs netCex filesNew ++ (runSegs netCex filesOld).drop 1)

/-- C3 refutation: the code has no generation guard, so a stale in-flight
probe from a superseded files list writes its result into the current
ResolutionState. In the scheduled interleaving below — old list ["/remote.bin"]
suspended at its probe, superseded by ["data:text/plain;base64,aGk="] whose
resolution completes first — the old run's epilogue runs last and overwrites
`fileTypes` with the superseded list's resolution ("application/octet-stream"
at index 0) instead of the current list's ("text/plain" at index 0). -/
theorem stale_probe_overwrites_resolution :
    Interleaving (runSegs netCex filesOld) (runSegs netCex filesNew) schedCex
    ∧ (execSched schedCex ⟨emptyMap, emptyMap⟩).fileTypes 0
        = some "application/octet-stream"
    ∧ resolveTypesMap netCex filesNew 0 = some "text/plain"
    ∧ (execSched schedCex ⟨emptyMap, emptyMap⟩).fileTypes
        ≠ resolveTypesMap netCex filesNew := by
  refine ⟨?_, rfl, rfl, ?_⟩
  · exact interleaving_head_left _ _ _
  · intro h
    exact absurd (congrFun h 0) (by decide)
